import Mathlib

/-!
Verification of the timestamp-ordered concurrency engine and coordinator of the
`tx-server` crate. The per-object engine is embedded from
`src/tx-server/src/sharding/object.rs`, the balance consistency check from
`src/tx-server/src/lib.rs`, and the 2PC aggregation plus commit-result formatting
from `src/tx-server/src/coordinator/mod.rs`. Pieces of the crate that are not in
`src/` (the transaction-id type and the shard layer) are modelled from the spec
and marked as such.
-/

namespace TxServer

/-- Modelled from the spec: `sharding/transaction_id.rs` is not under `src/`. Spec §4.3 and §3:
a `TransactionId` is `(logical counter: u64, node tag: NodeId)`, ordered lexicographically on
`(counter, node)`; the default id has counter 0. The node tag is embedded as a natural number. -/
structure TransactionId where
  counter : Nat
  node : Nat
deriving DecidableEq, Repr

def TransactionId.toLexPair (t : TransactionId) : Lex (Nat × Nat) :=
  toLex (t.counter, t.node)

theorem TransactionId.toLexPair_injective : Function.Injective TransactionId.toLexPair := by
  intro a b h
  have hp : (a.counter, a.node) = (b.counter, b.node) := toLex.injective h
  cases a
  cases b
  simpa using hp

instance : LinearOrder TransactionId :=
  LinearOrder.lift' TransactionId.toLexPair TransactionId.toLexPair_injective

/-- Modelled from the spec: `TransactionId::is_default()` is `counter == 0` (spec §4.3). -/
def TransactionId.isDefault (t : TransactionId) : Bool :=
  t.counter == 0

/-- Modelled from the spec: `TransactionId::default(owner_id)` is `(0, owner)` (spec §4.3). -/
def TransactionId.default (owner : Nat) : TransactionId :=
  ⟨0, owner⟩

/-- `BTreeSet::iter().next_back()` / the `next_back()` of a `BTreeMap` key range: the largest
element of a finite set of transaction ids, if any. -/
def finsetMax? (f : Finset TransactionId) : Option TransactionId :=
  if h : f.Nonempty then some (f.max' h) else none

/-- `BTreeMap::keys().next()`: the smallest element of a finite set of transaction ids, if any. -/
def finsetMin? (f : Finset TransactionId) : Option TransactionId :=
  if h : f.Nonempty then some (f.min' h) else none

/-- `RWFailure` (object.rs lines 35-40). -/
inductive RWFailure
  | WaitFor (t : TransactionId)
  | AbortedNotFound
  | Abort
deriving DecidableEq, Repr

/-- `CommitFailure<E>` (object.rs lines 42-46), with `E` fixed to the balance carried by
`NegativeBalance` (lib.rs lines 11, 48). -/
inductive CommitFailure
  | WaitFor (t : TransactionId)
  | ConsistencyCheckFailed (e : Int)
deriving DecidableEq, Repr

/-- `CommitSuccess<T>` (object.rs lines 48-52) at `T = Balance`. -/
inductive CommitSuccess
  | ValueChanged (v : Int)
  | NoChange (v : Int)
deriving DecidableEq, Repr

/-- `CheckCommitSuccess<()>` (object.rs lines 54-58): the `CommitValue` payload is unit. -/
inductive CheckCommitSuccess
  | CommitValue
  | NothingToCommit
deriving DecidableEq, Repr

/-- `Diffable::check` for `Balance` (src/tx-server/src/lib.rs lines 43-51): a non-negative
balance passes, a negative one fails with `NegativeBalance(balance)`. The object engine consumes
the success as unit (`CheckCommitSuccess<()>`). -/
def checkBalance (v : Int) : Except Int Unit :=
  if 0 ≤ v then Except.ok () else Except.error v

/-- The `tentative_writes` field: `BTreeMap<TransactionId, TentativeWrite<T>>` at `T = Balance`;
a `TentativeWrite` (object.rs lines 10-13) is just its stored value. -/
abbrev TentativeWrites := Finmap (fun _ : TransactionId => Int)

/-- `TimestampedObject<T>` (object.rs lines 28-33) at `T = Balance`. -/
structure TimestampedObject where
  value : Int
  committed_timestamp : TransactionId
  read_timestamps : Finset TransactionId
  tentative_writes : TentativeWrites
deriving DecidableEq

namespace TimestampedObject

/-- `TimestampedObject::default(owner_id)` (object.rs lines 64-71). -/
def default (owner : Nat) : TimestampedObject :=
  { value := 0
    committed_timestamp := TransactionId.default owner
    read_timestamps := ∅
    tentative_writes := ∅ }

/-- The key selected by `read`: the largest writer id in the range
`(committed_timestamp, id]` (`BTreeMap::range` plus `next_back()`, object.rs lines 77-83). -/
def rangeMaxKey (s : TimestampedObject) (id : TransactionId) : Option TransactionId :=
  finsetMax? (s.tentative_writes.keys.filter fun k => s.committed_timestamp < k ∧ k ≤ id)

/-- `TimestampedObject::read` (object.rs lines 73-119). The Rust method mutates `self` and
returns `Result<T, RWFailure>`; here it returns the result paired with the updated object, and
error paths return the object untouched exactly as the source does. The inner `none` lookup
branch can never execute because the selected key comes from `tentative_writes` itself (the
Rust iterator yields the key together with its entry). -/
def read (s : TimestampedObject) (id : TransactionId) :
    Except RWFailure Int × TimestampedObject :=
  if s.committed_timestamp < id then
    match s.rangeMaxKey id with
    | none =>
        if s.committed_timestamp.isDefault then
          (Except.error RWFailure.AbortedNotFound, s)
        else
          (Except.ok s.value, { s with read_timestamps := insert id s.read_timestamps })
    | some ts =>
        if ts = id then
          match s.tentative_writes.lookup ts with
          | some tw =>
              (Except.ok tw, { s with read_timestamps := insert id s.read_timestamps })
          | none => (Except.error RWFailure.Abort, s)
        else
          (Except.error (RWFailure.WaitFor ts), s)
  else
    (Except.error RWFailure.Abort, s)

/-- `TimestampedObject::write` (object.rs lines 121-146). `entry().and_modify().or_insert()`
replaces any existing tentative value for `id` (`TentativeWrite::update`, object.rs lines
23-25), which `Finmap.insert` does as well. -/
def write (s : TimestampedObject) (id : TransactionId) (value : Int) :
    Except RWFailure Unit × TimestampedObject :=
  let is_after_mrt : Bool :=
    match finsetMax? s.read_timestamps with
    | none => true
    | some mrt => decide (mrt ≤ id)
  if is_after_mrt ∧ s.committed_timestamp < id then
    (Except.ok (), { s with tentative_writes := s.tentative_writes.insert id value })
  else
    (Except.error RWFailure.Abort, s)

/-- `TimestampedObject::check_commit` (object.rs lines 148-171). A `none` result models a
panic: the `unreachable!()` arm and the `unwrap` on the lookup. -/
def check_commit (s : TimestampedObject) (id : TransactionId) :
    Option (Except CommitFailure CheckCommitSuccess) :=
  if s.tentative_writes.lookup id = none then
    some (Except.ok CheckCommitSuccess.NothingToCommit)
  else
    match finsetMin? s.tentative_writes.keys with
    | some first =>
        if id = first then
          match s.tentative_writes.lookup id with
          | some tw =>
              match checkBalance tw with
              | Except.ok _ => some (Except.ok CheckCommitSuccess.CommitValue)
              | Except.error e =>
                  some (Except.error (CommitFailure.ConsistencyCheckFailed e))
          | none => none
        else
          some (Except.error (CommitFailure.WaitFor first))
    | none => none

/-- `TimestampedObject::commit` (object.rs lines 173-188). A `none` result models the `unwrap`
panic on `remove_entry`. On `CommitValue` the entry of `id` is removed, the committed timestamp
becomes the removed key (equal to `id`) and the committed value becomes the tentative value. -/
def commit (s : TimestampedObject) (id : TransactionId) :
    Option (Except CommitFailure CommitSuccess × TimestampedObject) :=
  match s.check_commit id with
  | none => none
  | some (Except.error e) => some (Except.error e, s)
  | some (Except.ok CheckCommitSuccess.NothingToCommit) =>
      some (Except.ok (CommitSuccess.NoChange s.value), s)
  | some (Except.ok CheckCommitSuccess.CommitValue) =>
      match s.tentative_writes.lookup id with
      | none => none
      | some tw =>
          some (Except.ok (CommitSuccess.ValueChanged tw),
            { value := tw
              committed_timestamp := id
              read_timestamps := s.read_timestamps
              tentative_writes := s.tentative_writes.erase id })

/-- `TimestampedObject::abort` (object.rs lines 198-203); its error type is `Infallible`, so it
is embedded as the state update alone. -/
def abort (s : TimestampedObject) (id : TransactionId) : TimestampedObject :=
  { s with tentative_writes := s.tentative_writes.erase id,
           read_timestamps := s.read_timestamps.erase id }

/-- Spec §3 invariant: every writer id in `tentative_writes` is strictly greater than
`committed_timestamp`. -/
def Inv (s : TimestampedObject) : Prop :=
  ∀ k ∈ s.tentative_writes, s.committed_timestamp < k

end TimestampedObject

/-- Modelled from the spec: `Shard::write` lives in `sharding/mod.rs`, which is not under
`src/`. Spec §4.1 Write(T, delta): if `tentative[T]` exists, merge the delta so the stored value
reflects `committed_value.apply(accumulated_delta)`; otherwise insert a tentative with
`value = committed_value.apply(delta)`; diffs compose by addition (`BalanceDiff`, lib.rs lines
13-20). The materialized value is stored through `TimestampedObject::write`. -/
def shardWriteDiff (s : TimestampedObject) (id : TransactionId) (delta : Int) :
    Except RWFailure Unit × TimestampedObject :=
  let newValue :=
    match s.tentative_writes.lookup id with
    | some tv => tv + delta
    | none => s.value + delta
  s.write id newValue

deriving instance DecidableEq for Except

/-- `CommitStatus` of the 2PC protocol (coordinator/protocol.rs, visible through its uses in
coordinator/mod.rs: `ReadyToCommit` and `CannotCommit`). -/
inductive CommitStatus
  | ReadyToCommit
  | CannotCommit
deriving DecidableEq, Repr

/-- The externally visible actions of `Server::handle_two_phase_commit`
(coordinator/mod.rs lines 204-238): the client verdicts sent through `pass_to_client` and the
`Forwarded::DoCommit` broadcast. -/
inductive TPCEmit
  | CommitOkToClient (tx : TransactionId)
  | AbortedToClient (tx : TransactionId)
  | BroadcastDoCommit (tx : TransactionId)
deriving DecidableEq, Repr

/-- The coordinator's `commit_status` table: `HashMap<TransactionId, (usize, CommitStatus)>`
(coordinator/mod.rs line 29). -/
abbrev CommitStatusTable := Finmap (fun _ : TransactionId => Nat × CommitStatus)

/-- The latching update of the aggregate status performed per received vote
(coordinator/mod.rs lines 207-209: `if let CommitStatus::CannotCommit = commit_status`). -/
def stepLatch (curr : CommitStatus) (s : CommitStatus) : CommitStatus :=
  match s with
  | CommitStatus.CannotCommit => CommitStatus.CannotCommit
  | CommitStatus.ReadyToCommit => curr

/-- `Server::handle_two_phase_commit` (coordinator/mod.rs lines 204-238). `n` stands for
`self.server_pool.len()`; modelled from the spec, the server pool holds one handle per shard of
the cluster, self included (§4.4: commit requests are broadcast to every shard including self,
and the verdict fires "when the count reaches the total number of shards"), so `n` is the number
of shards. A `none` result models the `unwrap` panic when `tx` has no aggregate entry. The
returned list collects the emitted messages in order. -/
def handle_two_phase_commit (n : Nat) (table : CommitStatusTable) (tx : TransactionId)
    (s : CommitStatus) : Option (CommitStatusTable × List TPCEmit) :=
  match table.lookup tx with
  | none => none
  | some (count, curr) =>
      let count := count + 1
      let curr := stepLatch curr s
      if count = n then
        match curr with
        | CommitStatus.ReadyToCommit =>
            some (table.erase tx,
              [TPCEmit.CommitOkToClient tx, TPCEmit.BroadcastDoCommit tx])
        | CommitStatus.CannotCommit =>
            some (table.erase tx, [TPCEmit.AbortedToClient tx])
      else
        some (table.insert tx (count, curr), [])

/-- Feeding a sequence of received `TwoPhaseCommitStatus(tx, s)` messages one by one to
`handle_two_phase_commit`, accumulating the emitted messages. -/
def runTPC (n : Nat) (table : CommitStatusTable) (tx : TransactionId) :
    List CommitStatus → Option (CommitStatusTable × List TPCEmit)
  | [] => some (table, [])
  | s :: rest =>
      match handle_two_phase_commit n table tx s with
      | none => none
      | some (table', out) =>
          match runTPC n table' tx rest with
          | none => none
          | some (table'', out') => some (table'', out ++ out')

/-- The `k = v ` fragment appended by `format_commit_result` for a pair with non-zero balance
(coordinator/mod.rs lines 47-51). -/
def commitFragment (p : String × Int) : String :=
  p.1 ++ " = " ++ toString p.2 ++ " "

/-- The key sort of `format_commit_result` (coordinator/mod.rs line 45:
`result.sort_unstable_by(|(a, _), (b, _)| a.cmp(b))`), embedded as insertion sort by key. -/
def sortedByKey (l : List (String × Int)) : List (String × Int) :=
  List.insertionSort (fun a b => a.1 ≤ b.1) l

/-- The optional `k = v ` fragment a pair contributes: present iff the balance is non-zero. -/
def fragOf (p : String × Int) : Option String :=
  if p.2 ≠ 0 then some (commitFragment p) else none

/-- `format_commit_result` (coordinator/mod.rs lines 44-56): sort the `(key, balance)` pairs by
key, concatenate a `k = v ` fragment per non-zero balance, and print the line only when it is
non-empty (`some line` means a line is printed, `none` that nothing is). -/
def format_commit_result (result : List (String × Int)) : Option String :=
  let output := (sortedByKey result).foldl
    (fun acc p => if p.2 ≠ 0 then acc ++ commitFragment p else acc) ""
  if output = "" then none else some output

/-- A sample object used by witnesses: committed value 7 at timestamp (1,0), one recorded
reader (2,0), and tentative writes by (3,0) of 5 and by (4,0) of -2. -/
def sampleObj : TimestampedObject :=
  { value := 7
    committed_timestamp := ⟨1, 0⟩
    read_timestamps := {⟨2, 0⟩}
    tentative_writes := ((∅ : TentativeWrites).insert ⟨3, 0⟩ 5).insert ⟨4, 0⟩ (-2) }

theorem finsetMin?_spec {f : Finset TransactionId} {m : TransactionId}
    (h : finsetMin? f = some m) : m ∈ f ∧ ∀ k ∈ f, m ≤ k := by
  unfold finsetMin? at h
  split at h
  case isTrue hne =>
    cases h
    exact ⟨Finset.min'_mem _ _, fun k hk => Finset.min'_le _ _ hk⟩
  case isFalse hne => cases h

theorem finsetMax?_spec {f : Finset TransactionId} {m : TransactionId}
    (h : finsetMax? f = some m) : m ∈ f ∧ ∀ k ∈ f, k ≤ m := by
  unfold finsetMax? at h
  split at h
  case isTrue hne =>
    cases h
    exact ⟨Finset.max'_mem _ _, fun k hk => Finset.le_max' _ _ hk⟩
  case isFalse hne => cases h

theorem finsetMin?_of_nonempty {f : Finset TransactionId} (h : f.Nonempty) :
    finsetMin? f = some (f.min' h) := by
  unfold finsetMin?
  exact dif_pos h

theorem finsetMax?_of_nonempty {f : Finset TransactionId} (h : f.Nonempty) :
    finsetMax? f = some (f.max' h) := by
  unfold finsetMax?
  exact dif_pos h

theorem finsetMax?_eq_none_iff {f : Finset TransactionId} :
    finsetMax? f = none ↔ f = ∅ := by
  unfold finsetMax?
  split
  case isTrue h => simp [Finset.nonempty_iff_ne_empty.mp h]
  case isFalse h => simp [Finset.not_nonempty_iff_eq_empty.mp h]

theorem rangeMaxKey_spec {s : TimestampedObject} {id w : TransactionId}
    (h : s.rangeMaxKey id = some w) :
    w ∈ s.tentative_writes ∧ s.committed_timestamp < w ∧ w ≤ id ∧
      ∀ k ∈ s.tentative_writes, s.committed_timestamp < k → k ≤ id → k ≤ w := by
  unfold TimestampedObject.rangeMaxKey at h
  obtain ⟨hmem, hmax⟩ := finsetMax?_spec h
  rw [Finset.mem_filter] at hmem
  refine ⟨Finmap.mem_keys.mp hmem.1, hmem.2.1, hmem.2.2, ?_⟩
  intro k hk h1 h2
  exact hmax k (Finset.mem_filter.mpr ⟨Finmap.mem_keys.mpr hk, h1, h2⟩)

theorem lookup_isSome_of_mem {m : TentativeWrites} {k : TransactionId} (h : k ∈ m) :
    ∃ v, m.lookup k = some v :=
  Finmap.mem_iff.mp h

/-- C1: `read` behaves as the timestamp-ordering read rule. With `w` the tentative write with
the largest writer id in the open-closed range `(committed_ts, T]` (`rangeMaxKey`): a read at
`T ≤ committed_ts` fails with `Abort`; with no such `w` and a default committed timestamp it
fails with `AbortedNotFound`; with no such `w` otherwise it records `T` in `read_ts` and returns
the committed value; with `w`'s writer equal to `T` it records `T` and returns `w`'s tentative
value; with `w`'s writer strictly below `T` it fails with `WaitFor(writer)`. The last conjunct
shows the five cases are exhaustive: a selected writer always lies in `(committed_ts, T]` and
carries a tentative value. -/
theorem read_follows_timestamp_ordering (s : TimestampedObject) (id : TransactionId) :
    (id ≤ s.committed_timestamp → s.read id = (Except.error RWFailure.Abort, s)) ∧
    (s.committed_timestamp < id → s.rangeMaxKey id = none →
      s.committed_timestamp.isDefault = true →
      s.read id = (Except.error RWFailure.AbortedNotFound, s)) ∧
    (s.committed_timestamp < id → s.rangeMaxKey id = none →
      s.committed_timestamp.isDefault = false →
      s.read id =
        (Except.ok s.value, { s with read_timestamps := insert id s.read_timestamps })) ∧
    (∀ v, s.committed_timestamp < id → s.rangeMaxKey id = some id →
      s.tentative_writes.lookup id = some v →
      s.read id = (Except.ok v, { s with read_timestamps := insert id s.read_timestamps })) ∧
    (∀ w, s.committed_timestamp < id → s.rangeMaxKey id = some w → w < id →
      s.read id = (Except.error (RWFailure.WaitFor w), s)) ∧
    (∀ w, s.rangeMaxKey id = some w →
      s.committed_timestamp < w ∧ w ≤ id ∧ ∃ v, s.tentative_writes.lookup w = some v) := by
  refine ⟨?_, ?_, ?_, ?_, ?_, ?_⟩
  · intro h
    unfold TimestampedObject.read
    rw [if_neg (not_lt.mpr h)]
  · intro hlt hnone hdef
    unfold TimestampedObject.read
    rw [if_pos hlt]
    simp [hnone, hdef]
  · intro hlt hnone hdef
    unfold TimestampedObject.read
    rw [if_pos hlt]
    simp [hnone, hdef]
  · intro v hlt hsome hlk
    unfold TimestampedObject.read
    rw [if_pos hlt]
    simp [hsome, hlk]
  · intro w hlt hsome hwlt
    unfold TimestampedObject.read
    rw [if_pos hlt]
    simp only [hsome, if_neg (ne_of_lt hwlt)]
  · intro w hsome
    obtain ⟨hmem, h1, h2, _⟩ := rangeMaxKey_spec hsome
    exact ⟨h1, h2, lookup_isSome_of_mem hmem⟩

theorem read_follows_timestamp_ordering_witness :
    sampleObj.read ⟨3, 0⟩ =
      (Except.ok 5,
        { sampleObj with read_timestamps := insert ⟨3, 0⟩ sampleObj.read_timestamps }) :=
  (read_follows_timestamp_ordering sampleObj ⟨3, 0⟩).2.2.2.1 5 (by decide) (by decide)
    (by decide)

/-- Master case analysis of `check_commit`: either there is no tentative entry for `id` and the
result is `NothingToCommit`, or the entry exists, the key set has a least element `first ≤ id`,
and the result is `WaitFor first` (when `first ≠ id`), `CommitValue` (when `first = id` and the
tentative balance passes the check) or `ConsistencyCheckFailed` (when it is negative). -/
theorem check_commit_eq (s : TimestampedObject) (id : TransactionId) :
    (s.tentative_writes.lookup id = none ∧
      s.check_commit id = some (Except.ok CheckCommitSuccess.NothingToCommit)) ∨
    (∃ v first, s.tentative_writes.lookup id = some v ∧
      finsetMin? s.tentative_writes.keys = some first ∧ first ≤ id ∧
      ((first ≠ id ∧
          s.check_commit id = some (Except.error (CommitFailure.WaitFor first))) ∨
       (first = id ∧ 0 ≤ v ∧
          s.check_commit id = some (Except.ok CheckCommitSuccess.CommitValue)) ∨
       (first = id ∧ v < 0 ∧
          s.check_commit id =
            some (Except.error (CommitFailure.ConsistencyCheckFailed v))))) := by
  by_cases hlk : s.tentative_writes.lookup id = none
  · exact Or.inl ⟨hlk, by simp [TimestampedObject.check_commit, hlk]⟩
  · right
    obtain ⟨v, hv⟩ := Option.ne_none_iff_exists'.mp hlk
    have hmemk : id ∈ s.tentative_writes.keys :=
      Finmap.mem_keys.mpr (Finmap.mem_of_lookup_eq_some hv)
    have hne : s.tentative_writes.keys.Nonempty := ⟨id, hmemk⟩
    have hmin := finsetMin?_of_nonempty hne
    have hfle : s.tentative_writes.keys.min' hne ≤ id := Finset.min'_le _ _ hmemk
    refine ⟨v, s.tentative_writes.keys.min' hne, hv, hmin, hfle, ?_⟩
    by_cases hfid : s.tentative_writes.keys.min' hne = id
    · by_cases h0 : (0 : Int) ≤ v
      · refine Or.inr (Or.inl ⟨hfid, h0, ?_⟩)
        simp [TimestampedObject.check_commit, hv, hmin, hfid, checkBalance, h0]
      · refine Or.inr (Or.inr ⟨hfid, not_le.mp h0, ?_⟩)
        simp [TimestampedObject.check_commit, hv, hmin, hfid, checkBalance, h0]
    · refine Or.inl ⟨hfid, ?_⟩
      simp [TimestampedObject.check_commit, hv, hmin, Ne.symm hfid]

/-- C5: `check_commit(T)` returns `NothingToCommit` iff `tentative` has no entry for `T`;
fails with `WaitFor(first)` iff `T` has an entry but the smallest tentative writer `first`
differs from `T`; and when `T` is the smallest tentative writer, fails with
`ConsistencyCheckFailed` iff `T`'s tentative balance is negative, returning `CommitValue`
otherwise. -/
theorem check_commit_characterization (s : TimestampedObject) (id : TransactionId) :
    (s.check_commit id = some (Except.ok CheckCommitSuccess.NothingToCommit) ↔
      s.tentative_writes.lookup id = none) ∧
    (∀ f, s.check_commit id = some (Except.error (CommitFailure.WaitFor f)) ↔
      s.tentative_writes.lookup id ≠ none ∧
        finsetMin? s.tentative_writes.keys = some f ∧ f ≠ id) ∧
    (∀ v, s.tentative_writes.lookup id = some v →
      finsetMin? s.tentative_writes.keys = some id →
      ((∀ e, s.check_commit id =
          some (Except.error (CommitFailure.ConsistencyCheckFailed e)) ↔ v < 0 ∧ e = v) ∧
        (s.check_commit id = some (Except.ok CheckCommitSuccess.CommitValue) ↔ 0 ≤ v))) := by
  rcases check_commit_eq s id with ⟨hlk, hcc⟩ | ⟨v, first, hv, hmin, hfle, hcase⟩
  · refine ⟨by simp [hcc, hlk], ?_, ?_⟩
    · intro f
      simp [hcc, hlk]
    · intro v' hv'
      simp [hlk] at hv'
  · rcases hcase with ⟨hne, hcc⟩ | ⟨heq, h0, hcc⟩ | ⟨heq, h0, hcc⟩
    · refine ⟨by simp [hcc, hv], ?_, ?_⟩
      · intro f
        simp only [hcc, Option.some.injEq, Except.error.injEq, CommitFailure.WaitFor.injEq]
        constructor
        · rintro rfl
          exact ⟨by simp [hv], hmin, hne⟩
        · rintro ⟨-, hminf, -⟩
          rw [hmin] at hminf
          exact Option.some.inj hminf
      · intro v' hv' hminid
        rw [hmin] at hminid
        exact absurd (Option.some.inj hminid) hne
    · subst heq
      refine ⟨by simp [hcc, hv], ?_, ?_⟩
      · intro f
        constructor
        · intro h
          rw [hcc] at h
          exact absurd h (by simp)
        · rintro ⟨-, hminf, hfid⟩
          rw [hmin] at hminf
          exact absurd (Option.some.inj hminf).symm hfid
      · intro v' hv' hminid
        rw [hv] at hv'
        obtain rfl : v = v' := Option.some.inj hv'
        exact ⟨fun e => by simp [hcc, not_lt.mpr h0], by simp [hcc, h0]⟩
    · subst heq
      refine ⟨by simp [hcc, hv], ?_, ?_⟩
      · intro f
        constructor
        · intro h
          rw [hcc] at h
          exact absurd h (by simp)
        · rintro ⟨-, hminf, hfid⟩
          rw [hmin] at hminf
          exact absurd (Option.some.inj hminf).symm hfid
      · intro v' hv' hminid
        rw [hv] at hv'
        obtain rfl : v = v' := Option.some.inj hv'
        exact ⟨fun e => by simp [hcc, h0, eq_comm], by simp [hcc, not_le.mpr h0]⟩

theorem check_commit_characterization_witness :
    sampleObj.check_commit ⟨4, 0⟩ =
      some (Except.error (CommitFailure.WaitFor ⟨3, 0⟩)) :=
  ((check_commit_characterization sampleObj ⟨4, 0⟩).2.1 ⟨3, 0⟩).mpr
    ⟨by decide, by decide, by decide⟩

/-- C10: `check_commit` and `commit` are total: the `unreachable!()` arm and the `unwrap` calls
(modelled by a `none` result) can never execute, and whenever `tentative_writes` has an entry
for `id` its key set has a smallest element. -/
theorem check_commit_and_commit_never_panic (s : TimestampedObject) (id : TransactionId) :
    s.check_commit id ≠ none ∧ s.commit id ≠ none ∧
      (id ∈ s.tentative_writes → ∃ first, finsetMin? s.tentative_writes.keys = some first) := by
  have hmemmin : id ∈ s.tentative_writes →
      ∃ first, finsetMin? s.tentative_writes.keys = some first := by
    intro hmem
    have hne : s.tentative_writes.keys.Nonempty := ⟨id, Finmap.mem_keys.mpr hmem⟩
    exact ⟨_, finsetMin?_of_nonempty hne⟩
  rcases check_commit_eq s id with ⟨hlk, hcc⟩ | ⟨v, first, hv, hmin, hfle, hcase⟩
  · exact ⟨by simp [hcc], by simp [TimestampedObject.commit, hcc], hmemmin⟩
  · rcases hcase with ⟨hne, hcc⟩ | ⟨heq, h0, hcc⟩ | ⟨heq, h0, hcc⟩ <;>
      exact ⟨by simp [hcc], by simp [TimestampedObject.commit, hcc, hv], hmemmin⟩

theorem check_commit_and_commit_never_panic_witness :
    sampleObj.check_commit ⟨4, 0⟩ ≠ none ∧ sampleObj.commit ⟨4, 0⟩ ≠ none ∧
      finsetMin? sampleObj.tentative_writes.keys = some ⟨3, 0⟩ := by
  obtain ⟨h1, h2, h3⟩ := check_commit_and_commit_never_panic sampleObj ⟨4, 0⟩
  obtain ⟨first, hfirst⟩ := h3 (by decide)
  refine ⟨h1, h2, ?_⟩
  have : first = ⟨3, 0⟩ := by
    have hf := hfirst
    rw [show finsetMin? sampleObj.tentative_writes.keys = some ⟨3, 0⟩ from by decide] at hf
    exact (Option.some.inj hf).symm
  rw [this] at hfirst
  exact hfirst

theorem sampleObj_Inv : sampleObj.Inv := by
  intro k hk
  simp only [sampleObj, Finmap.mem_insert] at hk
  rcases hk with rfl | hk
  · decide
  · simp only [Finmap.mem_insert, Finmap.not_mem_empty, or_false] at hk
    subst hk
    decide

/-- C4: `commit(T)` runs `check_commit(T)`; on `CommitValue` it removes `tentative[T]`, sets the
committed timestamp to `T` and the committed value to the tentative value, and returns
`ValueChanged` of the new value — so the new committed timestamp equals `T` and (under the
data-model invariant `Inv`) is strictly greater than the previous one; on `NothingToCommit` it
returns `NoChange` of the current value with no state change; and a `check_commit` failure is
returned unchanged with no state change. -/
theorem commit_follows_check_commit (s : TimestampedObject) (id : TransactionId) :
    (s.check_commit id = some (Except.ok CheckCommitSuccess.CommitValue) →
      ∃ v, s.tentative_writes.lookup id = some v ∧
        s.commit id = some (Except.ok (CommitSuccess.ValueChanged v),
          { value := v
            committed_timestamp := id
            read_timestamps := s.read_timestamps
            tentative_writes := s.tentative_writes.erase id }) ∧
        (s.Inv → s.committed_timestamp < id)) ∧
    (s.check_commit id = some (Except.ok CheckCommitSuccess.NothingToCommit) →
      s.commit id = some (Except.ok (CommitSuccess.NoChange s.value), s)) ∧
    (∀ e, s.check_commit id = some (Except.error e) →
      s.commit id = some (Except.error e, s)) := by
  refine ⟨?_, ?_, ?_⟩
  · intro hcc
    rcases check_commit_eq s id with ⟨hlk, hcc'⟩ | ⟨v, first, hv, hmin, hfle, hcase⟩
    · rw [hcc] at hcc'
      simp at hcc'
    · refine ⟨v, hv, ?_, ?_⟩
      · simp [TimestampedObject.commit, hcc, hv]
      · intro hinv
        exact hinv id (Finmap.mem_of_lookup_eq_some hv)
  · intro hcc
    simp [TimestampedObject.commit, hcc]
  · intro e hcc
    simp [TimestampedObject.commit, hcc]

theorem commit_follows_check_commit_witness :
    sampleObj.commit ⟨3, 0⟩ = some (Except.ok (CommitSuccess.ValueChanged 5),
      { value := 5
        committed_timestamp := ⟨3, 0⟩
        read_timestamps := sampleObj.read_timestamps
        tentative_writes := sampleObj.tentative_writes.erase ⟨3, 0⟩ }) ∧
      sampleObj.committed_timestamp < ⟨3, 0⟩ := by
  obtain ⟨v, hv, hcommit, hlt⟩ :=
    (commit_follows_check_commit sampleObj ⟨3, 0⟩).1 (by decide)
  rw [show sampleObj.tentative_writes.lookup ⟨3, 0⟩ = some 5 from by decide] at hv
  obtain rfl : (5 : Int) = v := Option.some.inj hv
  exact ⟨hcommit, hlt sampleObj_Inv⟩

theorem read_snd_fields (s : TimestampedObject) (id : TransactionId) :
    (s.read id).2.committed_timestamp = s.committed_timestamp ∧
      (s.read id).2.tentative_writes = s.tentative_writes := by
  unfold TimestampedObject.read
  repeat' split
  all_goals simp

theorem write_snd_cases (s : TimestampedObject) (id : TransactionId) (v : Int) :
    (s.write id v).2 = s ∨
      (s.committed_timestamp < id ∧
        (s.write id v).2 = { s with tentative_writes := s.tentative_writes.insert id v }) := by
  unfold TimestampedObject.write
  dsimp only
  split
  case isTrue h => exact Or.inr ⟨h.2, rfl⟩
  case isFalse h => exact Or.inl rfl

theorem commit_snd_cases (s : TimestampedObject) (id : TransactionId)
    (r : Except CommitFailure CommitSuccess) (s' : TimestampedObject)
    (h : s.commit id = some (r, s')) :
    (s' = s ∧ ∀ v, r ≠ Except.ok (CommitSuccess.ValueChanged v)) ∨
      (∃ v, s.tentative_writes.lookup id = some v ∧
        finsetMin? s.tentative_writes.keys = some id ∧
        r = Except.ok (CommitSuccess.ValueChanged v) ∧
        s' = { value := v
               committed_timestamp := id
               read_timestamps := s.read_timestamps
               tentative_writes := s.tentative_writes.erase id }) := by
  rcases check_commit_eq s id with ⟨hlk, hcc⟩ | ⟨v, first, hv, hmin, hfle, hcase⟩
  · have hc : s.commit id = some (Except.ok (CommitSuccess.NoChange s.value), s) := by
      simp [TimestampedObject.commit, hcc]
    rw [hc] at h
    have hps := Option.some.inj h
    refine Or.inl ⟨(congrArg Prod.snd hps).symm, ?_⟩
    intro v hr
    rw [hr] at hps
    simpa using congrArg Prod.fst hps
  · rcases hcase with ⟨hne, hcc⟩ | ⟨heq, h0, hcc⟩ | ⟨heq, h0, hcc⟩
    · have hc : s.commit id = some (Except.error (CommitFailure.WaitFor first), s) := by
        simp [TimestampedObject.commit, hcc]
      rw [hc] at h
      have hps := Option.some.inj h
      refine Or.inl ⟨(congrArg Prod.snd hps).symm, ?_⟩
      intro w hr
      rw [hr] at hps
      simpa using congrArg Prod.fst hps
    · rw [heq] at hmin
      have hc : s.commit id = some (Except.ok (CommitSuccess.ValueChanged v),
          { value := v
            committed_timestamp := id
            read_timestamps := s.read_timestamps
            tentative_writes := s.tentative_writes.erase id }) := by
        simp [TimestampedObject.commit, hcc, hv]
      rw [hc] at h
      have hps := Option.some.inj h
      exact Or.inr ⟨v, hv, hmin, (congrArg Prod.fst hps).symm, (congrArg Prod.snd hps).symm⟩
    · rw [heq] at hmin
      have hc : s.commit id =
          some (Except.error (CommitFailure.ConsistencyCheckFailed v), s) := by
        simp [TimestampedObject.commit, hcc]
      rw [hc] at h
      have hps := Option.some.inj h
      refine Or.inl ⟨(congrArg Prod.snd hps).symm, ?_⟩
      intro w hr
      rw [hr] at hps
      simpa using congrArg Prod.fst hps

/-- C6: the data-model invariant — every id in `tentative_writes` is strictly greater than
`committed_timestamp` (`Inv`) — holds of a freshly created default object and is preserved by
`read`, `write`, `commit` and `abort` (`check_commit` borrows the object immutably, so in this
embedding it returns no state at all). Moreover, after a successful value-changing commit no
key at or below the new committed timestamp remains in `tentative_writes`: the committed writer
was the smallest tentative key and `commit` removes exactly that entry. -/
theorem tentative_writes_above_committed_timestamp :
    (∀ owner : Nat, (TimestampedObject.default owner).Inv) ∧
    (∀ (s : TimestampedObject) (id : TransactionId), s.Inv → (s.read id).2.Inv) ∧
    (∀ (s : TimestampedObject) (id : TransactionId) (v : Int),
      s.Inv → (s.write id v).2.Inv) ∧
    (∀ (s : TimestampedObject) (id : TransactionId) r (s' : TimestampedObject),
      s.Inv → s.commit id = some (r, s') → s'.Inv) ∧
    (∀ (s : TimestampedObject) (id : TransactionId), s.Inv → (s.abort id).Inv) ∧
    (∀ (s : TimestampedObject) (id : TransactionId) (v : Int) (s' : TimestampedObject),
      s.commit id = some (Except.ok (CommitSuccess.ValueChanged v), s') →
      ∀ k ∈ s'.tentative_writes, ¬k ≤ s'.committed_timestamp) := by
  have hcommit : ∀ (s : TimestampedObject) id r s', s.commit id = some (r, s') →
      s' = s ∨ (∃ v, finsetMin? s.tentative_writes.keys = some id ∧
        r = Except.ok (CommitSuccess.ValueChanged v) ∧
        s' = { value := v
               committed_timestamp := id
               read_timestamps := s.read_timestamps
               tentative_writes := s.tentative_writes.erase id }) := by
    intro s id r s' h
    rcases commit_snd_cases s id r s' h with ⟨hs, -⟩ | ⟨v, -, hmin, hr, hs⟩
    · exact Or.inl hs
    · exact Or.inr ⟨v, hmin, hr, hs⟩
  refine ⟨?_, ?_, ?_, ?_, ?_, ?_⟩
  · intro owner k hk
    have hk' : k ∈ (∅ : TentativeWrites) := hk
    exact absurd hk' Finmap.not_mem_empty
  · intro s id hinv k hk
    obtain ⟨hc, ht⟩ := read_snd_fields s id
    rw [ht] at hk
    rw [hc]
    exact hinv k hk
  · intro s id v hinv k hk
    rcases write_snd_cases s id v with hs | ⟨hlt, hs⟩
    · rw [hs] at hk ⊢
      exact hinv k hk
    · rw [hs] at hk ⊢
      rcases Finmap.mem_insert.mp hk with rfl | hk'
      · exact hlt
      · exact hinv k hk'
  · intro s id r s' hinv h k hk
    rcases hcommit s id r s' h with hs | ⟨v, hmin, -, hs⟩
    · rw [hs] at hk ⊢
      exact hinv k hk
    · rw [hs] at hk ⊢
      obtain ⟨hkne, hkmem⟩ := Finmap.mem_erase.mp hk
      have hle := (finsetMin?_spec hmin).2 k (Finmap.mem_keys.mpr hkmem)
      exact lt_of_le_of_ne hle (Ne.symm hkne)
  · intro s id hinv k hk
    simp only [TimestampedObject.abort] at hk ⊢
    exact hinv k (Finmap.mem_erase.mp hk).2
  · intro s id v s' h k hk
    rcases commit_snd_cases s id _ s' h with ⟨-, hnone⟩ | ⟨w, -, hmin, -, hs⟩
    · exact absurd rfl (hnone v)
    · rw [hs] at hk ⊢
      obtain ⟨hkne, hkmem⟩ := Finmap.mem_erase.mp hk
      have hle := (finsetMin?_spec hmin).2 k (Finmap.mem_keys.mpr hkmem)
      exact not_le.mpr (lt_of_le_of_ne hle (Ne.symm hkne))

/-- The sample object after transaction (3,0) commits. -/
def sampleObj3 : TimestampedObject :=
  { value := 5
    committed_timestamp := ⟨3, 0⟩
    read_timestamps := {⟨2, 0⟩}
    tentative_writes := (∅ : TentativeWrites).insert ⟨4, 0⟩ (-2) }

theorem tentative_writes_above_committed_timestamp_witness :
    ¬(⟨4, 0⟩ : TransactionId) ≤ sampleObj3.committed_timestamp :=
  tentative_writes_above_committed_timestamp.2.2.2.2.2 sampleObj ⟨3, 0⟩ 5 sampleObj3
    (by decide) ⟨4, 0⟩ (by decide)

theorem write_eq_ok (s : TimestampedObject) (id : TransactionId) (v : Int)
    (h1 : ∀ m, finsetMax? s.read_timestamps = some m → m ≤ id)
    (h2 : s.committed_timestamp < id) :
    s.write id v =
      (Except.ok (), { s with tentative_writes := s.tentative_writes.insert id v }) := by
  unfold TimestampedObject.write
  rcases hmx : finsetMax? s.read_timestamps with _ | mrt
  · simp [hmx, h2]
  · simp [hmx, h1 mrt hmx, h2]

theorem write_eq_error (s : TimestampedObject) (id : TransactionId) (v : Int)
    (h : (∃ m, finsetMax? s.read_timestamps = some m ∧ id < m) ∨
      id ≤ s.committed_timestamp) :
    s.write id v = (Except.error RWFailure.Abort, s) := by
  unfold TimestampedObject.write
  rcases h with ⟨m, hm, hlt⟩ | hle
  · simp [hm, not_le.mpr hlt]
  · rcases hmx : finsetMax? s.read_timestamps with _ | mrt
    · simp [hmx, not_lt.mpr hle]
    · simp [hmx, not_lt.mpr hle]

theorem write_cases (s : TimestampedObject) (id : TransactionId) (v : Int) :
    (¬((∃ m, finsetMax? s.read_timestamps = some m ∧ id < m) ∨
        id ≤ s.committed_timestamp) ∧
      s.write id v =
        (Except.ok (), { s with tentative_writes := s.tentative_writes.insert id v })) ∨
    (((∃ m, finsetMax? s.read_timestamps = some m ∧ id < m) ∨
        id ≤ s.committed_timestamp) ∧
      s.write id v = (Except.error RWFailure.Abort, s)) := by
  by_cases hP : (∃ m, finsetMax? s.read_timestamps = some m ∧ id < m) ∨
      id ≤ s.committed_timestamp
  · exact Or.inr ⟨hP, write_eq_error s id v hP⟩
  · refine Or.inl ⟨hP, write_eq_ok s id v ?_ ?_⟩
    · intro m hm
      by_contra hlt
      exact hP (Or.inl ⟨m, hm, not_le.mp hlt⟩)
    · by_contra hle
      exact hP (Or.inr (not_lt.mp hle))

/-- C7: `write(T, value)` fails with `Abort` iff `T` is strictly below the maximum recorded
read timestamp (when one exists) or at most the committed timestamp; otherwise it succeeds, and
after a successful write the maximum read timestamp is at most `T` and the committed timestamp
is strictly below `T`. -/
theorem write_success_characterization (s : TimestampedObject) (id : TransactionId)
    (v : Int) :
    ((s.write id v).1 = Except.error RWFailure.Abort ↔
      (∃ m, finsetMax? s.read_timestamps = some m ∧ id < m) ∨
        id ≤ s.committed_timestamp) ∧
    ((s.write id v).1 = Except.ok () ↔
      ¬((∃ m, finsetMax? s.read_timestamps = some m ∧ id < m) ∨
        id ≤ s.committed_timestamp)) ∧
    (∀ s', s.write id v = (Except.ok (), s') →
      (∀ m, finsetMax? s'.read_timestamps = some m → m ≤ id) ∧
        s'.committed_timestamp < id) := by
  rcases write_cases s id v with ⟨hP, hw⟩ | ⟨hP, hw⟩
  · have h1 : ∀ m, finsetMax? s.read_timestamps = some m → m ≤ id := by
      intro m hm
      by_contra hlt
      exact hP (Or.inl ⟨m, hm, not_le.mp hlt⟩)
    have h2 : s.committed_timestamp < id := by
      by_contra hle
      exact hP (Or.inr (not_lt.mp hle))
    refine ⟨by simp [hw, hP], by simp [hw, hP], ?_⟩
    intro s' h
    rw [hw] at h
    injection h with h1' hs
    subst hs
    exact ⟨h1, h2⟩
  · refine ⟨by simp [hw, hP], by simp [hw, hP], ?_⟩
    intro s' h
    rw [hw] at h
    simpa using congrArg Prod.fst h

theorem write_success_characterization_witness :
    (sampleObj.write ⟨5, 0⟩ 3).1 = Except.ok () :=
  (write_success_characterization sampleObj ⟨5, 0⟩ 3).2.1.mpr (by
    rintro (⟨m, hm, hlt⟩ | hle)
    · rw [show finsetMax? sampleObj.read_timestamps = some ⟨2, 0⟩ from by decide] at hm
      cases Option.some.inj hm
      exact absurd hlt (by decide)
    · exact absurd hle (by decide))

theorem read_result_state (s : TimestampedObject) (id : TransactionId) :
    (∃ e, s.read id = (Except.error e, s)) ∨
      (∃ x, s.read id =
        (Except.ok x, { s with read_timestamps := insert id s.read_timestamps })) := by
  unfold TimestampedObject.read
  repeat' split
  all_goals first
    | exact Or.inl ⟨_, rfl⟩
    | exact Or.inr ⟨_, rfl⟩

/-- C9: a `read` or `write` that returns an error leaves the object exactly as it was; a
successful `read` changes nothing except inserting `T` into `read_timestamps`; a successful
`write` changes nothing except the tentative entry of `T`. -/
theorem failed_operations_leave_object_unchanged (s : TimestampedObject)
    (id : TransactionId) (v : Int) :
    (∀ e, (s.read id).1 = Except.error e → (s.read id).2 = s) ∧
    (∀ x, (s.read id).1 = Except.ok x →
      (s.read id).2 = { s with read_timestamps := insert id s.read_timestamps }) ∧
    (∀ e, (s.write id v).1 = Except.error e → (s.write id v).2 = s) ∧
    ((s.write id v).1 = Except.ok () → (s.write id v).2 =
      { s with tentative_writes := s.tentative_writes.insert id v }) := by
  refine ⟨?_, ?_, ?_, ?_⟩
  · intro e he
    rcases read_result_state s id with ⟨e', hr⟩ | ⟨x, hr⟩
    · rw [hr]
    · rw [hr] at he
      simp at he
  · intro x he
    rcases read_result_state s id with ⟨e', hr⟩ | ⟨x', hr⟩
    · rw [hr] at he
      simp at he
    · rw [hr]
  · intro e he
    rcases write_cases s id v with ⟨hP, hw⟩ | ⟨hP, hw⟩
    · rw [hw] at he
      simp at he
    · rw [hw]
  · intro he
    rcases write_cases s id v with ⟨hP, hw⟩ | ⟨hP, hw⟩
    · rw [hw]
    · rw [hw] at he
      simp at he

theorem failed_operations_leave_object_unchanged_witness :
    (sampleObj.read ⟨1, 0⟩).2 = sampleObj ∧
      (sampleObj.write ⟨5, 0⟩ 3).2 =
        { sampleObj with
          tentative_writes := sampleObj.tentative_writes.insert ⟨5, 0⟩ 3 } :=
  ⟨(failed_operations_leave_object_unchanged sampleObj ⟨1, 0⟩ 3).1 RWFailure.Abort
      (by decide),
    (failed_operations_leave_object_unchanged sampleObj ⟨5, 0⟩ 3).2.2.2 (by decide)⟩

/-- The messages `handle_two_phase_commit` emits when the response count reaches the cluster
size: the client verdict, plus the `DoCommit` broadcast on the commit path. -/
def verdictEmits (tx : TransactionId) : CommitStatus → List TPCEmit
  | CommitStatus.ReadyToCommit =>
      [TPCEmit.CommitOkToClient tx, TPCEmit.BroadcastDoCommit tx]
  | CommitStatus.CannotCommit => [TPCEmit.AbortedToClient tx]

/-- The aggregate status after latching the votes of `l` onto `curr`. -/
def latchStatus (curr : CommitStatus) (l : List CommitStatus) : CommitStatus :=
  if curr = CommitStatus.CannotCommit ∨ CommitStatus.CannotCommit ∈ l
  then CommitStatus.CannotCommit else CommitStatus.ReadyToCommit

theorem latchStatus_nil (curr : CommitStatus) : latchStatus curr [] = curr := by
  cases curr <;> simp [latchStatus]

theorem latchStatus_cons (curr s : CommitStatus) (l : List CommitStatus) :
    latchStatus curr (s :: l) = latchStatus (stepLatch curr s) l := by
  cases s <;> cases curr <;> simp [latchStatus, stepLatch]

theorem handle_tpc_eq (n : Nat) (table : CommitStatusTable) (tx : TransactionId)
    (s : CommitStatus) (c : Nat) (curr : CommitStatus)
    (hlk : table.lookup tx = some (c, curr)) :
    handle_two_phase_commit n table tx s =
      if c + 1 = n then some (table.erase tx, verdictEmits tx (stepLatch curr s))
      else some (table.insert tx (c + 1, stepLatch curr s), []) := by
  cases hsl : stepLatch curr s <;>
    simp [handle_two_phase_commit, hlk, hsl, verdictEmits]

theorem tpc_erase_insert (a : TransactionId) (b : Nat × CommitStatus)
    (m : CommitStatusTable) : (m.insert a b).erase a = m.erase a := by
  apply Finmap.ext_lookup
  intro x
  by_cases hx : x = a
  · subst hx
    rw [Finmap.lookup_erase, Finmap.lookup_erase]
  · rw [Finmap.lookup_erase_ne hx, Finmap.lookup_erase_ne hx,
      Finmap.lookup_insert_of_ne _ hx]

theorem runTPC_spec (n : Nat) (tx : TransactionId) (l : List CommitStatus) :
    ∀ (table : CommitStatusTable) (c : Nat) (curr : CommitStatus),
      table.lookup tx = some (c, curr) →
      (c + l.length < n →
        ∃ table', runTPC n table tx l = some (table', []) ∧
          table'.lookup tx = some (c + l.length, latchStatus curr l) ∧
          table'.erase tx = table.erase tx) ∧
      (l ≠ [] → c + l.length = n →
        runTPC n table tx l = some (table.erase tx, verdictEmits tx (latchStatus curr l))) := by
  induction l with
  | nil =>
    intro table c curr hlk
    constructor
    · intro hlt
      exact ⟨table, rfl, by simpa [latchStatus_nil] using hlk, rfl⟩
    · intro hne
      exact absurd rfl hne
  | cons s rest ih =>
    intro table c curr hlk
    have hh := handle_tpc_eq n table tx s c curr hlk
    by_cases hcn : c + 1 = n
    · rw [if_pos hcn] at hh
      constructor
      · intro hlt
        simp only [List.length_cons] at hlt
        omega
      · intro hne hsum
        have hrest : rest = [] := by
          simp only [List.length_cons] at hsum
          have : rest.length = 0 := by omega
          exact List.length_eq_zero.mp this
        subst hrest
        simp [runTPC, hh, latchStatus_cons, latchStatus_nil]
    · rw [if_neg hcn] at hh
      have hlk' : (table.insert tx (c + 1, stepLatch curr s)).lookup tx =
          some (c + 1, stepLatch curr s) := Finmap.lookup_insert table
      obtain ⟨ih1, ih2⟩ := ih (table.insert tx (c + 1, stepLatch curr s)) (c + 1)
        (stepLatch curr s) hlk'
      constructor
      · intro hlt
        obtain ⟨table', hrun, hlkt, herase⟩ := ih1 (by simp only [List.length_cons] at hlt; omega)
        refine ⟨table', ?_, ?_, ?_⟩
        · simp [runTPC, hh, hrun]
        · rw [hlkt, latchStatus_cons]
          congr 2
          simp only [List.length_cons]
          omega
        · rw [herase, tpc_erase_insert]
      · intro hne hsum
        have hrne : rest ≠ [] := by
          intro hr
          subst hr
          simp only [List.length_cons, List.length_nil] at hsum
          omega
        have hrun := ih2 hrne (by simp only [List.length_cons] at hsum; omega)
        rw [tpc_erase_insert] at hrun
        simp [runTPC, hh, hrun, latchStatus_cons]

/-- C3: with the 2PC aggregate entry of `tx` initialized to `(0, ReadyToCommit)`, each received
status increments the response count and latches the aggregate to `CannotCommit` when the status
is `CannotCommit`; strictly before the count reaches the cluster size `n` nothing is emitted and
the entry stays; exactly when the count reaches `n` the coordinator emits one client verdict and
removes the entry — `CommitOk` followed by a `DoCommit` broadcast when every received status was
`ReadyToCommit`, `Aborted` otherwise — and the outcome does not depend on the arrival order. -/
theorem two_phase_commit_aggregation (n : Nat) (table : CommitStatusTable)
    (tx : TransactionId) (l : List CommitStatus)
    (hinit : table.lookup tx = some (0, CommitStatus.ReadyToCommit)) :
    (l.length < n → ∃ table', runTPC n table tx l = some (table', []) ∧
      table'.lookup tx =
        some (l.length, latchStatus CommitStatus.ReadyToCommit l)) ∧
    (0 < n → l.length = n → runTPC n table tx l = some (table.erase tx,
      if ∀ s ∈ l, s = CommitStatus.ReadyToCommit
      then [TPCEmit.CommitOkToClient tx, TPCEmit.BroadcastDoCommit tx]
      else [TPCEmit.AbortedToClient tx])) ∧
    (∀ l', l.Perm l' → 0 < n → l.length = n →
      runTPC n table tx l = runTPC n table tx l') := by
  have hverdict : ∀ m : List CommitStatus,
      verdictEmits tx (latchStatus CommitStatus.ReadyToCommit m) =
        if ∀ s ∈ m, s = CommitStatus.ReadyToCommit
        then [TPCEmit.CommitOkToClient tx, TPCEmit.BroadcastDoCommit tx]
        else [TPCEmit.AbortedToClient tx] := by
    intro m
    by_cases hm : CommitStatus.CannotCommit ∈ m
    · have : ¬∀ s ∈ m, s = CommitStatus.ReadyToCommit := by
        intro hall
        exact absurd (hall _ hm) (by simp)
      simp [latchStatus, hm, verdictEmits, this]
    · have hall : ∀ s ∈ m, s = CommitStatus.ReadyToCommit := by
        intro s hs
        cases s
        · rfl
        · exact absurd hs hm
      rw [if_pos hall]
      simp [latchStatus, hm, verdictEmits]
  obtain ⟨h1, h2⟩ := runTPC_spec n tx l table 0 CommitStatus.ReadyToCommit hinit
  have hpart2 : 0 < n → l.length = n → runTPC n table tx l = some (table.erase tx,
      if ∀ s ∈ l, s = CommitStatus.ReadyToCommit
      then [TPCEmit.CommitOkToClient tx, TPCEmit.BroadcastDoCommit tx]
      else [TPCEmit.AbortedToClient tx]) := by
    intro hn hlen
    have hne : l ≠ [] := by
      intro h0
      subst h0
      simp only [List.length_nil] at hlen
      omega
    rw [h2 hne (by omega), hverdict]
  refine ⟨?_, hpart2, ?_⟩
  · intro hlt
    obtain ⟨table', hrun, hlkt, -⟩ := h1 (by omega)
    exact ⟨table', hrun, by simpa using hlkt⟩
  · intro l' hperm hn hlen
    obtain ⟨-, h2'⟩ := runTPC_spec n tx l' table 0 CommitStatus.ReadyToCommit hinit
    have hlen' : l'.length = n := by rw [← hperm.length_eq]; exact hlen
    have hne' : l' ≠ [] := by
      intro h0
      subst h0
      simp only [List.length_nil] at hlen'
      omega
    have hne : l ≠ [] := by
      intro h0
      subst h0
      simp only [List.length_nil] at hlen
      omega
    rw [h2 hne (by omega), h2' hne' (by omega), hverdict l, hverdict l']
    have hiff : (∀ s ∈ l, s = CommitStatus.ReadyToCommit) ↔
        (∀ s ∈ l', s = CommitStatus.ReadyToCommit) := by
      constructor
      · intro hall s hs
        exact hall s (hperm.mem_iff.mpr hs)
      · intro hall s hs
        exact hall s (hperm.mem_iff.mp hs)
    by_cases hall : ∀ s ∈ l, s = CommitStatus.ReadyToCommit
    · rw [if_pos hall, if_pos (hiff.mp hall)]
    · rw [if_neg hall, if_neg (fun h => hall (hiff.mpr h))]

/-- A sample 2PC table used by the witness: transaction (1,0) just initialized. -/
def tpcTable0 : CommitStatusTable :=
  (∅ : CommitStatusTable).insert ⟨1, 0⟩ (0, CommitStatus.ReadyToCommit)

theorem two_phase_commit_aggregation_witness :
    runTPC 2 tpcTable0 ⟨1, 0⟩
        [CommitStatus.ReadyToCommit, CommitStatus.CannotCommit] =
      some (tpcTable0.erase ⟨1, 0⟩, [TPCEmit.AbortedToClient ⟨1, 0⟩]) := by
  have h := (two_phase_commit_aggregation 2 tpcTable0 ⟨1, 0⟩
      [CommitStatus.ReadyToCommit, CommitStatus.CannotCommit] (by decide)).2.1
      (by decide) (by decide)
  simpa using h

theorem string_data_ext {a b : String} (h : a.data = b.data) : a = b := by
  cases a
  cases b
  simp_all

theorem string_join_cons (s : String) (l : List String) :
    String.join (s :: l) = s ++ String.join l := by
  apply string_data_ext
  simp [String.data_append]

theorem string_length_eq_zero {s : String} : s.length = 0 ↔ s = "" := by
  constructor
  · intro h
    cases s with
    | mk d =>
      cases d with
      | nil => rfl
      | cons c cs => simp at h
  · intro h
    subst h
    rfl

theorem commitFragment_length (p : String × Int) : 0 < (commitFragment p).length := by
  unfold commitFragment
  rw [String.length_append]
  have h1 : (" " : String).length = 1 := rfl
  rw [h1]
  omega

theorem join_fragOf_eq_empty_iff (l : List (String × Int)) :
    String.join (l.filterMap fragOf) = "" ↔ ∀ p ∈ l, p.2 = 0 := by
  induction l with
  | nil => simp [String.join]
  | cons p rest ih =>
    by_cases hp : p.2 = 0
    · simp only [List.filterMap_cons, fragOf, hp]
      rw [if_neg (by simp)]
      simp only [ih, List.mem_cons]
      constructor
      · intro hall q hq
        rcases hq with rfl | hq
        · exact hp
        · exact hall q hq
      · intro hall q hq
        exact hall q (Or.inr hq)
    · simp only [List.filterMap_cons, fragOf, hp]
      rw [if_pos hp]
      rw [string_join_cons]
      constructor
      · intro h
        exfalso
        have hl := congrArg String.length h
        rw [String.length_append] at hl
        have h0 : ("" : String).length = 0 := rfl
        rw [h0] at hl
        have := commitFragment_length p
        omega
      · intro hall
        exact absurd (hall p (List.mem_cons_self p rest)) hp

theorem foldl_fragments (l : List (String × Int)) :
    ∀ acc : String,
      l.foldl (fun acc p => if p.2 ≠ 0 then acc ++ commitFragment p else acc) acc =
        acc ++ String.join (l.filterMap fragOf) := by
  induction l with
  | nil =>
    intro acc
    simp only [List.foldl_nil, List.filterMap_nil]
    have h : String.join ([] : List String) = "" := rfl
    rw [h, String.append_empty]
  | cons p rest ih =>
    intro acc
    by_cases hp : p.2 = 0
    · simp only [List.foldl_cons, List.filterMap_cons, fragOf, hp]
      rw [if_neg (by simp), if_neg (by simp)]
      exact ih acc
    · simp only [List.foldl_cons, List.filterMap_cons, fragOf, hp]
      rw [if_pos hp, if_pos hp]
      rw [ih (acc ++ commitFragment p), string_join_cons, String.append_assoc]

instance : IsTotal (String × Int) fun a b => a.1 ≤ b.1 :=
  ⟨fun a b => le_total a.1 b.1⟩

instance : IsTrans (String × Int) fun a b => a.1 ≤ b.1 :=
  ⟨fun _ _ _ h1 h2 => le_trans h1 h2⟩

/-- C8: `format_commit_result` prints exactly one line consisting of a `k = v ` fragment for
every pair with non-zero balance, the fragments ordered by ascending key (the sorted list is a
permutation of the input and is sorted on keys), zero balances omitted, and prints nothing at
all when the list is empty or every balance is zero. -/
theorem format_commit_result_characterization (result : List (String × Int)) :
    (format_commit_result result = none ↔ ∀ p ∈ result, p.2 = 0) ∧
    ((∃ p ∈ result, p.2 ≠ 0) → format_commit_result result =
      some (String.join ((sortedByKey result).filterMap fragOf))) ∧
    (sortedByKey result).Perm result ∧
    List.Sorted (fun a b : String × Int => a.1 ≤ b.1) (sortedByKey result) := by
  have hperm : (sortedByKey result).Perm result := List.perm_insertionSort _ _
  have hempty : String.join ((sortedByKey result).filterMap fragOf) = "" ↔
      ∀ p ∈ result, p.2 = 0 := by
    rw [join_fragOf_eq_empty_iff]
    exact ⟨fun hall p hp => hall p (hperm.mem_iff.mpr hp),
      fun hall p hp => hall p (hperm.mem_iff.mp hp)⟩
  have hform : format_commit_result result =
      if String.join ((sortedByKey result).filterMap fragOf) = "" then none
      else some (String.join ((sortedByKey result).filterMap fragOf)) := by
    unfold format_commit_result
    rw [foldl_fragments, String.empty_append]
  refine ⟨?_, ?_, hperm, List.sorted_insertionSort _ _⟩
  · rw [hform]
    by_cases h : String.join ((sortedByKey result).filterMap fragOf) = ""
    · rw [if_pos h]
      constructor
      · intro _
        exact hempty.mp h
      · intro _
        rfl
    · rw [if_neg h]
      constructor
      · intro hcontra
        cases hcontra
      · intro hall
        exact absurd (hempty.mpr hall) h
  · rintro ⟨p, hp, hpz⟩
    have hne : ¬String.join ((sortedByKey result).filterMap fragOf) = "" := fun h =>
      hpz (hempty.mp h p hp)
    rw [hform, if_neg hne]

theorem format_commit_result_characterization_witness :
    format_commit_result [("a", 2)] = some (String.join [commitFragment ("a", 2)]) := by
  have h := (format_commit_result_characterization [("a", 2)]).2.1
    ⟨("a", 2), by simp, by simp⟩
  rw [h]
  rfl

/-- The empty object owned by node 0, the start of the write-write stall scenario
(spec §8 scenario 2). -/
def scnObj0 : TimestampedObject := TimestampedObject.default 0

/-- Transaction A of the scenario, generated by node 1. -/
def scnTxA : TransactionId := ⟨1, 1⟩

/-- Transaction B of the scenario, younger than A. -/
def scnTxB : TransactionId := ⟨2, 1⟩

/-- The object after `write(A, +10)` expressed as a diff through the spec-modelled shard. -/
def scnObj1 : TimestampedObject := (shardWriteDiff scnObj0 scnTxA 10).2

/-- The object after the subsequent `write(B, +30)`. -/
def scnObj2 : TimestampedObject := (shardWriteDiff scnObj1 scnTxB 30).2

/-- The object after `commit(A)` (the `getD` fallback is irrelevant: the commit succeeds). -/
def scnObj3 : TimestampedObject :=
  ((scnObj2.commit scnTxA).getD (Except.ok (CommitSuccess.NoChange 0), scnObj2)).2

/-- C2 counterexample: in the write-write stall scenario with writes expressed as diffs
through the spec-modelled shard layer, both writes succeed, `check_commit(B)` yields
`WaitFor(A)`, `commit(A)` yields `ValueChanged 10` — but `commit(B)` does NOT yield
`ValueChanged 40`: each transaction's tentative value is materialized against the committed
value at its own write time, so the two transactions' diffs do not compose. -/
theorem write_write_scenario_counterexample :
    (shardWriteDiff scnObj0 scnTxA 10).1 = Except.ok () ∧
    (shardWriteDiff scnObj1 scnTxB 30).1 = Except.ok () ∧
    scnObj2.check_commit scnTxB = some (Except.error (CommitFailure.WaitFor scnTxA)) ∧
    scnObj2.commit scnTxA = some (Except.ok (CommitSuccess.ValueChanged 10), scnObj3) ∧
    scnObj3.check_commit scnTxB = some (Except.ok CheckCommitSuccess.CommitValue) ∧
    Option.map Prod.fst (scnObj3.commit scnTxB) ≠
      some (Except.ok (CommitSuccess.ValueChanged 40)) := by
  decide

/-- C2 amended: the scenario as above, with `commit(B)` returning `ValueChanged 30` (B's
tentative value was materialized as `0 + 30` while A was still uncommitted); a repeated write
by the same transaction does merge its delta into the existing tentative entry (last conjunct:
after `write(A,+10)` then `write(A,-4)` the stored tentative value is `0 + (10 - 4) = 6`). -/
theorem write_write_scenario_amended :
    (shardWriteDiff scnObj0 scnTxA 10).1 = Except.ok () ∧
    (shardWriteDiff scnObj1 scnTxB 30).1 = Except.ok () ∧
    scnObj2.check_commit scnTxB = some (Except.error (CommitFailure.WaitFor scnTxA)) ∧
    scnObj2.commit scnTxA = some (Except.ok (CommitSuccess.ValueChanged 10), scnObj3) ∧
    scnObj3.check_commit scnTxB = some (Except.ok CheckCommitSuccess.CommitValue) ∧
    Option.map Prod.fst (scnObj3.commit scnTxB) =
      some (Except.ok (CommitSuccess.ValueChanged 30)) ∧
    (shardWriteDiff scnObj1 scnTxA (-4)).2.tentative_writes.lookup scnTxA = some 6 := by
  decide

end TxServer
